import Mathlib

/-!
Verification development for the stock-research-app scheduling and
storage pipeline.  The Lean definitions below are shallow embeddings of
the Python source:

* api/common/models.py        : recurrence engine (compute_next_run_utc)
* api/common/cosmos.py        : document store, local-file branch
* api/common/openai_agent.py  : report synthesis control flow
* api/reports_delete          : report deletion handler
* api/due_scheduler           : timer-driven due-schedule sweep
* api/schedules_create        : schedule creation handler

Instants are modelled as natural numbers of seconds on an unbounded UTC
timeline (the Python code only ever adds whole hours, days and weeks to
a datetime whose seconds and microseconds have been zeroed, so second
counts are exact; the year-9999 cap of the datetime library is
idealised away).  ISO-8601 strings stored in documents are kept as
strings and compared with the code-point lexicographic order that
Python string comparison uses.
-/

/-- Code-point lexicographic "less or equal" on character lists: the
order Python uses to compare strings. -/
def lexLe : List Char → List Char → Bool
  | [], _ => true
  | _ :: _, [] => false
  | a :: as, b :: bs =>
    if a.toNat < b.toNat then true
    else if b.toNat < a.toNat then false
    else lexLe as bs

/-- Code-point lexicographic strict "less than" on character lists. -/
def lexLt : List Char → List Char → Bool
  | [], [] => false
  | [], _ :: _ => true
  | _ :: _, [] => false
  | a :: as, b :: bs =>
    if a.toNat < b.toNat then true
    else if b.toNat < a.toNat then false
    else lexLt as bs

/-- Python string comparison a <= b (code-point lexicographic). -/
def strLe (a b : String) : Bool := lexLe a.data b.data

/-- Python string comparison a < b (code-point lexicographic). -/
def strLt (a b : String) : Bool := lexLt a.data b.data

/-- The whitespace characters removed by the Python str.strip method
(ASCII subset: space, tab, newline, carriage return, vertical tab,
form feed). -/
def isPySpace (c : Char) : Bool :=
  c.toNat = 32 || c.toNat = 9 || c.toNat = 10 || c.toNat = 13 ||
  c.toNat = 11 || c.toNat = 12

/-- Python str.strip: drop whitespace from both ends. -/
def pyStrip (s : String) : String :=
  ⟨(((s.data.dropWhile isPySpace).reverse.dropWhile isPySpace).reverse)⟩

/-- Python str.upper restricted to ASCII letters (ticker symbols and
prompts in this code base are ASCII). -/
def pyUpper (s : String) : String := ⟨s.data.map Char.toUpper⟩

/-- Python truthiness of an optional string: None and the empty string
are falsy. -/
def pyTruthy : Option String → Bool
  | none => false
  | some s => !(s == "")

/-- Python expression (x or d) for an optional int x: None and 0 give
the default. -/
def pyOrInt : Option Int → Int → Int
  | none, d => d
  | some n, d => if n = 0 then d else n

/-- datetime.replace(second=0, microsecond=0): floor an instant to the
whole minute. -/
def minuteFloor (t : Nat) : Nat := 60 * (t / 60)

/-- Midnight (00:00:00 UTC) of the day containing an instant. -/
def dayStart (t : Nat) : Nat := 86400 * (t / 86400)

/-- datetime.weekday(): 0 = Monday .. 6 = Sunday.  The Unix epoch
1970-01-01 was a Thursday, hence the +3 offset. -/
def weekdayOf (t : Nat) : Nat := (t / 86400 + 3) % 7

/-- models.py Recurrence: a tagged cadence descriptor.  The source
field is named type, which is a Lean keyword, hence rtype here.  The
pydantic Literal annotation is not enforced at the compute function
boundary, so rtype is a plain string. -/
structure Recurrence where
  rtype : String
  hour : Option Int := none
  dow : Option Int := none
  interval : Option Int := none
deriving DecidableEq, Repr

/-- 0 if the optional hour is absent, else the hour clamped to 0..23
(models.py max(0, min(23, hour))). -/
def clampHour : Option Int → Nat
  | none => 0
  | some h => (max 0 (min 23 h)).toNat

/-- 0 if the optional weekday is absent, else clamped to 0..6. -/
def clampDow : Option Int → Nat
  | none => 0
  | some d => (max 0 (min 6 d)).toNat

/-- models.py compute_next_run_utc: next run instant for a recurrence
spec, anchored at from_dt.  The Python function returns the ISO string
of this instant; the instant itself is the faithful value (the ISO
rendering is an injective, order-preserving encoding). -/
def compute_next_run_utc (recurrence : Recurrence) (from_dt : Nat) : Nat :=
  let base := minuteFloor from_dt
  if recurrence.rtype = "hours" then
    let interval := max 1 (pyOrInt recurrence.interval 24)
    base + 3600 * interval.toNat
  else if recurrence.rtype = "daily" then
    let hour := clampHour recurrence.hour
    let candidate := dayStart base + 3600 * hour
    if candidate ≤ base then candidate + 86400 else candidate
  else if recurrence.rtype = "weekly" then
    let dow := clampDow recurrence.dow
    let hour := clampHour recurrence.hour
    let days_ahead := (dow + 7 - weekdayOf base) % 7
    let candidate := dayStart (base + 86400 * days_ahead) + 3600 * hour
    if candidate ≤ base then candidate + 7 * 86400 else candidate
  else
    base + 86400

/-- Spec wording for the fallback branch of computeNextRun: the claim
says an unrecognized cadence yields now plus one hour. -/
def computeNextRunFallbackSpec (now : Nat) : Nat := now + 3600

/-- Spec wording for the daily rule as claimed: today at hour:minute
when that instant is strictly after now, otherwise that instant
advanced by interval days. -/
def dailySpecNext (interval hour minute now : Nat) : Nat :=
  let c := dayStart now + 3600 * hour + 60 * minute
  if now < c then c else c + 86400 * interval

-- ── basic facts about the time helpers ──────────────────────────────

theorem minuteFloor_le (t : Nat) : minuteFloor t ≤ t := by
  have h := Nat.mod_add_div t 60
  unfold minuteFloor
  omega

theorem lt_minuteFloor_add (t : Nat) : t < minuteFloor t + 60 := by
  have h := Nat.mod_add_div t 60
  have h2 : t % 60 < 60 := Nat.mod_lt _ (by norm_num)
  unfold minuteFloor
  omega

theorem dvd60_minuteFloor (t : Nat) : 60 ∣ minuteFloor t := ⟨t / 60, rfl⟩

theorem dvd60_dayStart (t : Nat) : 60 ∣ dayStart t := ⟨1440 * (t / 86400), by unfold dayStart; ring⟩

theorem dayStart_le (t : Nat) : dayStart t ≤ t := by
  have h := Nat.mod_add_div t 86400
  unfold dayStart
  omega

theorem lt_dayStart_add (t : Nat) : t < dayStart t + 86400 := by
  have h := Nat.mod_add_div t 86400
  have h2 : t % 86400 < 86400 := Nat.mod_lt _ (by norm_num)
  unfold dayStart
  omega

/-- An instant that lies on a whole minute and is strictly after the
minute floor of now is strictly after now itself. -/
theorem now_lt_of_dvd60 {now a : Nat} (hd : 60 ∣ a)
    (h : minuteFloor now < a) : now < a := by
  obtain ⟨k, hk⟩ := hd
  have h1 := lt_minuteFloor_add now
  have h2 : minuteFloor now = 60 * (now / 60) := rfl
  omega

/-- Flooring to the minute does not change the containing day. -/
theorem dayStart_minuteFloor (t : Nat) : dayStart (minuteFloor t) = dayStart t := by
  unfold dayStart minuteFloor
  have h1 : 60 * (t / 60) / 86400 = t / 86400 := by
    have h2 : (86400 : Nat) = 60 * 1440 := by norm_num
    rw [h2, Nat.mul_div_mul_left _ _ (by norm_num : (0:Nat) < 60),
      Nat.div_div_eq_div_mul]
  rw [h1]

/-- Adding whole days commutes with taking the start of day. -/
theorem dayStart_add_days (t k : Nat) :
    dayStart (t + 86400 * k) = dayStart t + 86400 * k := by
  unfold dayStart
  rw [Nat.add_mul_div_left _ _ (by norm_num : (0:Nat) < 86400), Nat.mul_add]

/-- C1: for every recurrence value of type hours, daily or weekly (any
interval, hour and weekday) and every instant now,
compute_next_run_utc returns an instant strictly greater than now; a
candidate exactly equal to now always advances to the next occurrence. -/
theorem C1_computeNextRun_strictly_after_now (rec : Recurrence) (now : Nat)
    (h : rec.rtype = "hours" ∨ rec.rtype = "daily" ∨ rec.rtype = "weekly") :
    now < compute_next_run_utc rec now := by
  have hmf := lt_minuteFloor_add now
  have hmfd := dvd60_minuteFloor now
  have hds := dvd60_dayStart (minuteFloor now)
  have hdlt := lt_dayStart_add (minuteFloor now)
  unfold compute_next_run_utc
  rcases h with h | h | h <;> rw [h]
  · rw [if_pos rfl]
    dsimp only
    refine now_lt_of_dvd60 ?_ ?_
    · omega
    · have h1 : (1 : Int) ≤ max 1 (pyOrInt rec.interval 24) := le_max_left _ _
      omega
  · rw [if_neg (by decide), if_pos rfl]
    dsimp only
    split
    · refine now_lt_of_dvd60 (by omega) (by omega)
    · refine now_lt_of_dvd60 (by omega) (by omega)
  · rw [if_neg (by decide), if_neg (by decide), if_pos rfl]
    dsimp only
    rw [dayStart_add_days]
    split
    · refine now_lt_of_dvd60 (by omega) (by omega)
    · refine now_lt_of_dvd60 (by omega) (by omega)

/-- Witness for C1 at a concrete recurrence and instant. -/
theorem C1_witness :
    ((⟨"hours", none, none, some 2⟩ : Recurrence).rtype = "hours" ∨
      (⟨"hours", none, none, some 2⟩ : Recurrence).rtype = "daily" ∨
      (⟨"hours", none, none, some 2⟩ : Recurrence).rtype = "weekly") ∧
    100 < compute_next_run_utc ⟨"hours", none, none, some 2⟩ 100 :=
  ⟨Or.inl rfl, C1_computeNextRun_strictly_after_now _ 100 (Or.inl rfl)⟩

/-- C5 counterexample: on the unrecognized cadence type monthly the
code returns base plus one day, not now plus one hour as claimed. -/
theorem C5_counterexample :
    compute_next_run_utc ⟨"monthly", none, none, none⟩ 0 ≠
      computeNextRunFallbackSpec 0 := by decide

/-- C5 amended: computeNextRun is total, and for any recurrence whose
type is none of hours, daily, weekly it returns the safe fallback of
now (floored to the minute) plus one day. -/
theorem C5_amended_fallback_is_one_day (rec : Recurrence) (now : Nat)
    (h1 : rec.rtype ≠ "hours") (h2 : rec.rtype ≠ "daily")
    (h3 : rec.rtype ≠ "weekly") :
    compute_next_run_utc rec now = minuteFloor now + 86400 := by
  unfold compute_next_run_utc
  rw [if_neg h1, if_neg h2, if_neg h3]

/-- Witness for C5 amended at the concrete monthly cadence. -/
theorem C5_amended_witness :
    (⟨"monthly", none, none, none⟩ : Recurrence).rtype ≠ "hours" ∧
    (⟨"monthly", none, none, none⟩ : Recurrence).rtype ≠ "daily" ∧
    (⟨"monthly", none, none, none⟩ : Recurrence).rtype ≠ "weekly" ∧
    compute_next_run_utc ⟨"monthly", none, none, none⟩ 123 =
      minuteFloor 123 + 86400 :=
  ⟨by decide, by decide, by decide,
    C5_amended_fallback_is_one_day _ 123 (by decide) (by decide) (by decide)⟩

/-- C6 counterexample: a daily recurrence with hour 5 and interval 3,
at 06:00 of day zero.  The code advances by exactly one day (result
05:00 of day one); the claimed rule advances by interval days (05:00
of day three).  The code also has no minute parameter. -/
theorem C6_counterexample :
    compute_next_run_utc ⟨"daily", some 5, none, some 3⟩ 21600 ≠
      dailySpecNext 3 5 0 21600 := by decide

/-- C6 amended: for a daily recurrence the code uses only the hour
field (minute fixed at zero, interval ignored): it returns today at
hour:00 when that instant is strictly after now, otherwise that
instant advanced by exactly one day. -/
theorem C6_amended_daily_rule (h : Int) (dw iv : Option Int) (now : Nat)
    (h0 : 0 ≤ h) (h23 : h ≤ 23) :
    compute_next_run_utc ⟨"daily", some h, dw, iv⟩ now =
      (if now < dayStart now + 3600 * h.toNat then dayStart now + 3600 * h.toNat
       else dayStart now + 3600 * h.toNat + 86400) := by
  have hc : clampHour (some h) = h.toNat := by simp only [clampHour]; omega
  have hmf := minuteFloor_le now
  have hmfd := dvd60_minuteFloor now
  have hmlt := lt_minuteFloor_add now
  have hds := dvd60_dayStart now
  unfold compute_next_run_utc
  dsimp only
  rw [if_neg (by decide), if_pos rfl]
  simp only [hc, dayStart_minuteFloor]
  by_cases hcb : dayStart now + 3600 * h.toNat ≤ minuteFloor now
  · rw [if_pos hcb, if_neg (by omega)]
  · rw [if_neg hcb, if_pos (by refine now_lt_of_dvd60 (by omega) (by omega))]

/-- Witness for C6 amended: daily at hour 7, from 10:15:30 of day zero. -/
theorem C6_amended_witness :
    ((0 : Int) ≤ 7) ∧ ((7 : Int) ≤ 23) ∧
    compute_next_run_utc ⟨"daily", some 7, none, none⟩ 36930 =
      (if 36930 < dayStart 36930 + 3600 * (7 : Int).toNat
       then dayStart 36930 + 3600 * (7 : Int).toNat
       else dayStart 36930 + 3600 * (7 : Int).toNat + 86400) :=
  ⟨by decide, by decide,
    C6_amended_daily_rule 7 none none 36930 (by decide) (by decide)⟩

-- ── facts about the Python string order ─────────────────────────────

theorem lexLe_refl : ∀ a : List Char, lexLe a a = true := by
  intro a
  induction a with
  | nil => rfl
  | cons x as ih => simp [lexLe, ih]

theorem lexLe_trans :
    ∀ (a b c : List Char), lexLe a b = true → lexLe b c = true →
      lexLe a c = true := by
  intro a
  induction a with
  | nil => intro b c _ _; rfl
  | cons x as ih =>
    intro b c h1 h2
    cases b with
    | nil => simp [lexLe] at h1
    | cons y bs =>
      cases c with
      | nil => simp [lexLe] at h2
      | cons z cs =>
        simp only [lexLe] at h1 h2 ⊢
        split_ifs at h1 h2 ⊢ <;>
          first
            | rfl
            | omega
            | exact ih bs cs h1 h2
            | simp_all

theorem lexLe_total :
    ∀ (a b : List Char), (lexLe a b || lexLe b a) = true := by
  intro a
  induction a with
  | nil => intro b; cases b <;> simp [lexLe]
  | cons x as ih =>
    intro b
    cases b with
    | nil => simp [lexLe]
    | cons y bs =>
      simp only [lexLe]
      by_cases hxy : x.toNat < y.toNat
      · simp [hxy]
      · by_cases hyx : y.toNat < x.toNat
        · simp [hxy, hyx]
        · simpa [hxy, hyx] using ih bs

theorem lexLe_of_lexLt :
    ∀ (a b : List Char), lexLt a b = true → lexLe a b = true := by
  intro a
  induction a with
  | nil => intro b _; rfl
  | cons x as ih =>
    intro b h
    cases b with
    | nil => simp [lexLt] at h
    | cons y bs =>
      simp only [lexLt] at h
      simp only [lexLe]
      split_ifs at h ⊢ <;> first | rfl | omega | exact ih bs h | simp_all

theorem not_lexLe_of_lexLt :
    ∀ (a b : List Char), lexLt a b = true → lexLe b a = false := by
  intro a
  induction a with
  | nil =>
    intro b h
    cases b with
    | nil => simp [lexLt] at h
    | cons y bs => rfl
  | cons x as ih =>
    intro b h
    cases b with
    | nil => simp [lexLt] at h
    | cons y bs =>
      simp only [lexLt] at h
      simp only [lexLe]
      split_ifs at h ⊢ <;> first | rfl | omega | exact ih bs h | simp_all

theorem strLe_refl (a : String) : strLe a a = true := lexLe_refl a.data

theorem strLe_trans {a b c : String} (h1 : strLe a b = true)
    (h2 : strLe b c = true) : strLe a c = true :=
  lexLe_trans a.data b.data c.data h1 h2

theorem strLe_total (a b : String) : (strLe a b || strLe b a) = true :=
  lexLe_total a.data b.data

theorem strLe_of_strLt {a b : String} (h : strLt a b = true) :
    strLe a b = true := lexLe_of_lexLt a.data b.data h

theorem not_strLe_of_strLt {a b : String} (h : strLt a b = true) :
    strLe b a = false := not_lexLe_of_lexLt a.data b.data h

-- ── document store: schedules (cosmos.py, local-file branch) ────────

/-- models.py EmailSettings.  The source field is named to, which is a
reserved token here, hence to_. -/
structure EmailSettings where
  to_ : List String := []
  attachPdf : Bool := false
deriving DecidableEq, Repr

/-- A schedule document as stored by cosmos.py (model_dump of
models.py Schedule plus the fields read back by the scanner; prompt
and title are optional because older documents may lack them, which
the readers guard with (x or default)). -/
structure ScheduleDoc where
  id : String
  userId : String
  prompt : Option String := none
  title : Option String := none
  symbols : List String := []
  recurrence : Recurrence := { rtype := "daily" }
  email : Option EmailSettings := none
  active : Bool := true
  nextRunAt : Option String := none
  createdAt : String := ""
deriving DecidableEq, Repr

/-- The sort key used by list_due_schedules:
x.get("nextRunAt") or "". -/
def dueKey (s : ScheduleDoc) : String := s.nextRunAt.getD ""

/-- Sort relation of the due query (ascending by nextRunAt). -/
def dueLe (a b : ScheduleDoc) : Bool := strLe (dueKey a) (dueKey b)

/-- The filter applied by the loop body of list_due_schedules: skip
inactive schedules, skip falsy (absent or empty) nextRunAt, keep
nextRunAt <= now. -/
def duePredCode (now_iso : String) (s : ScheduleDoc) : Bool :=
  s.active &&
    (match s.nextRunAt with
     | none => false
     | some v => !(v == "") && strLe v now_iso)

/-- The same filter as worded by the spec: active with a non-null
nextRunAt that is at most now. -/
def duePredSpec (now_iso : String) (s : ScheduleDoc) : Bool :=
  s.active &&
    (match s.nextRunAt with
     | none => false
     | some v => strLe v now_iso)

/-- cosmos.py list_due_schedules, local-file branch: filter the
schedules, sort ascending by nextRunAt (Python list.sort is stable, as
is List.mergeSort), truncate to the limit. -/
def list_due_schedules (now_iso : String) (limit : Nat)
    (db : List ScheduleDoc) : List ScheduleDoc :=
  ((db.filter (duePredCode now_iso)).mergeSort dueLe).take limit

theorem dueLe_trans (a b c : ScheduleDoc) (h1 : dueLe a b = true)
    (h2 : dueLe b c = true) : dueLe a c = true := strLe_trans h1 h2

theorem dueLe_total (a b : ScheduleDoc) : (dueLe a b || dueLe b a) = true :=
  strLe_total _ _

/-- C3: on any store whose nextRunAt values are real (non-empty)
timestamps, the due query returns exactly the schedules that are
active with a non-null nextRunAt at most now, stably sorted ascending
by nextRunAt and truncated to the first limit entries; every returned
schedule is due and comes from the store. -/
theorem C3_list_due_schedules_correct (now_iso : String) (limit : Nat)
    (db : List ScheduleDoc)
    (hwf : ∀ s ∈ db, s.nextRunAt ≠ some "") :
    list_due_schedules now_iso limit db =
      ((db.filter (duePredSpec now_iso)).mergeSort dueLe).take limit ∧
    List.Pairwise (fun a b => dueLe a b = true)
      (list_due_schedules now_iso limit db) ∧
    (list_due_schedules now_iso limit db).length ≤ limit ∧
    (∀ s ∈ list_due_schedules now_iso limit db,
      (s.active = true ∧ ∃ v, s.nextRunAt = some v ∧ strLe v now_iso = true) ∧
      s ∈ db) := by
  have hfilter : db.filter (duePredCode now_iso) =
      db.filter (duePredSpec now_iso) := by
    apply List.filter_congr
    intro s hs
    unfold duePredCode duePredSpec
    cases hnr : s.nextRunAt with
    | none => rfl
    | some v =>
      have hv : v ≠ "" := by
        intro h
        exact hwf s hs (by rw [hnr, h])
      have hbeq : (v == "") = false := beq_eq_false_iff_ne.mpr hv
      simp [hbeq]
  refine ⟨?_, ?_, ?_, ?_⟩
  · unfold list_due_schedules
    rw [hfilter]
  · unfold list_due_schedules
    exact List.Pairwise.sublist (List.take_sublist _ _)
      (List.sorted_mergeSort dueLe_trans dueLe_total _)
  · unfold list_due_schedules
    rw [List.length_take]
    exact min_le_left _ _
  · intro s hs
    unfold list_due_schedules at hs
    have h1 : s ∈ (db.filter (duePredCode now_iso)).mergeSort dueLe :=
      List.mem_of_mem_take hs
    have h2 : s ∈ db.filter (duePredCode now_iso) :=
      (List.mergeSort_perm _ _).mem_iff.mp h1
    obtain ⟨hdb, hpred⟩ := List.mem_filter.mp h2
    refine ⟨?_, hdb⟩
    unfold duePredCode at hpred
    cases hnr : s.nextRunAt with
    | none => rw [hnr] at hpred; simp at hpred
    | some v =>
      rw [hnr] at hpred
      simp only [Bool.and_eq_true] at hpred
      exact ⟨hpred.1, v, rfl, hpred.2.2⟩

/-- Witness for C3 on a concrete two-schedule store. -/
theorem C3_witness :
    (∀ s ∈ [({ id := "s1", userId := "u",
                nextRunAt := some "2024-01-02T09:00:00+00:00" } : ScheduleDoc),
             { id := "s2", userId := "u",
                nextRunAt := some "2024-01-01T08:00:00+00:00" }],
        s.nextRunAt ≠ some "") ∧
    ((∀ s ∈ list_due_schedules "2024-01-03T00:00:00+00:00" 1
        [({ id := "s1", userId := "u",
            nextRunAt := some "2024-01-02T09:00:00+00:00" } : ScheduleDoc),
         { id := "s2", userId := "u",
            nextRunAt := some "2024-01-01T08:00:00+00:00" }],
      (s.active = true ∧
        ∃ v, s.nextRunAt = some v ∧ strLe v "2024-01-03T00:00:00+00:00" = true) ∧
      s ∈ [({ id := "s1", userId := "u",
              nextRunAt := some "2024-01-02T09:00:00+00:00" } : ScheduleDoc),
           { id := "s2", userId := "u",
              nextRunAt := some "2024-01-01T08:00:00+00:00" }])) :=
  ⟨by decide,
    (C3_list_due_schedules_correct "2024-01-03T00:00:00+00:00" 1 _
      (by decide)).2.2.2⟩

-- ── document store: tracked stocks (cosmos.py) ──────────────────────

/-- Modelled from the spec: the TrackedStock record class is imported
by cosmos.py from models.py but its declaration is not present in the
sources; its fields are reconstructed from the spec (user, symbol,
optional reportId, recommendation date and price snapshot) and from
the constructor calls in tracked_stocks_create and save_report.  The
price is a float in the source; no arithmetic or comparison is ever
performed on it by the store, so it is carried as an integer. -/
structure TrackedStock where
  id : String := ""
  userId : String
  symbol : String
  reportTitle : Option String := none
  reportId : Option String := none
  recommendationDate : String
  recommendationPrice : Int := 0
deriving DecidableEq, Repr

/-- A tracked-stock document as stored (model_dump plus assigned id
and createdAt). -/
structure TrackedStockDoc where
  id : String
  userId : String
  symbol : String
  reportTitle : Option String := none
  reportId : Option String := none
  recommendationDate : String
  recommendationPrice : Int := 0
  createdAt : String := ""
deriving DecidableEq, Repr

/-- The dedup-bucket test of get_tracked_stock_by_symbol: same user,
same symbol, and either the same truthy reportId or both reportIds
falsy (None and the empty string are the null bucket). -/
def sameDedupKey (user_id symbol : String) (report_id : Option String)
    (ts : TrackedStockDoc) : Bool :=
  ts.userId == user_id && ts.symbol == symbol &&
    (if pyTruthy report_id then ts.reportId == report_id
     else !(pyTruthy ts.reportId))

/-- cosmos.py get_tracked_stock_by_symbol, local branch: first match
in store order, or None. -/
def get_tracked_stock_by_symbol (user_id symbol : String)
    (report_id : Option String) (db : List TrackedStockDoc) :
    Option TrackedStockDoc :=
  db.find? (sameDedupKey user_id symbol report_id)

/-- cosmos.py delete_tracked_stock, local branch: drop every entry
with the given id and owner; report whether anything was dropped. -/
def delete_tracked_stock (stock_id user_id : String)
    (db : List TrackedStockDoc) : Bool × List TrackedStockDoc :=
  let deleted := db.any (fun ts => ts.id == stock_id && ts.userId == user_id)
  if deleted then
    (true, db.filter (fun ts => !(ts.id == stock_id && ts.userId == user_id)))
  else (false, db)

/-- The stored document built by create_tracked_stock:
data.get("id") or uuid4, createdAt stamped now. -/
def mkTrackedDoc (stock : TrackedStock) (freshId nowIso : String) :
    TrackedStockDoc :=
  { id := if stock.id == "" then freshId else stock.id
    userId := stock.userId
    symbol := stock.symbol
    reportTitle := stock.reportTitle
    reportId := stock.reportId
    recommendationDate := stock.recommendationDate
    recommendationPrice := stock.recommendationPrice
    createdAt := nowIso }

/-- cosmos.py create_tracked_stock: dedup by (userId, symbol,
reportId); an existing entry with recommendationDate <= the new date
is returned unchanged, otherwise the existing entry is deleted and the
new record appended. -/
def create_tracked_stock (stock : TrackedStock) (freshId nowIso : String)
    (db : List TrackedStockDoc) : TrackedStockDoc × List TrackedStockDoc :=
  match get_tracked_stock_by_symbol stock.userId stock.symbol stock.reportId db with
  | some existing =>
    if strLe existing.recommendationDate stock.recommendationDate then
      (existing, db)
    else
      let db1 := (delete_tracked_stock existing.id stock.userId db).2
      let data := mkTrackedDoc stock freshId nowIso
      (data, db1 ++ [data])
  | none =>
    let data := mkTrackedDoc stock freshId nowIso
    (data, db ++ [data])

/-- Removing via a predicate that spares at least one p-element leaves
strictly fewer p-elements than the whole list had. -/
theorem countP_and_lt_of_mem {α : Type} {l : List α} {p q : α → Bool}
    {e : α} (he : e ∈ l) (hpe : p e = true) (hqe : q e = false) :
    List.countP (fun a => p a && q a) l < List.countP p l := by
  induction l with
  | nil => cases he
  | cons x xs ih =>
    have hmono : List.countP (fun a => p a && q a) xs ≤ List.countP p xs :=
      List.countP_mono_left (by
        intro a _ h
        rw [Bool.and_eq_true] at h
        exact h.1)
    rcases List.mem_cons.mp he with rfl | hmem
    · simp only [List.countP_cons]
      simp [hpe, hqe]
      omega
    · have h2 := ih hmem
      simp only [List.countP_cons]
      by_cases hpx : p x = true
      · by_cases hqx : q x = true
        · simp [hpx, hqx]
          omega
        · simp [hpx, Bool.eq_false_iff.mpr hqx]
          omega
      · simp [Bool.eq_false_iff.mpr hpx]
        omega

/-- C4: with an existing entry in the dedup bucket of the new record,
an earlier new recommendationDate deletes the existing entry and
stores the new record, a later one leaves the store untouched and
returns the existing entry; and the bucket never grows beyond one
entry. -/
theorem C4_create_tracked_stock_earlier_wins
    (stock : TrackedStock) (freshId nowIso : String)
    (db : List TrackedStockDoc) :
    (∀ e, get_tracked_stock_by_symbol stock.userId stock.symbol
        stock.reportId db = some e →
      strLt stock.recommendationDate e.recommendationDate = true →
      create_tracked_stock stock freshId nowIso db =
        (mkTrackedDoc stock freshId nowIso,
          db.filter (fun ts => !(ts.id == e.id && ts.userId == stock.userId)) ++
            [mkTrackedDoc stock freshId nowIso])) ∧
    (∀ e, get_tracked_stock_by_symbol stock.userId stock.symbol
        stock.reportId db = some e →
      strLt e.recommendationDate stock.recommendationDate = true →
      create_tracked_stock stock freshId nowIso db = (e, db)) ∧
    (db.countP (sameDedupKey stock.userId stock.symbol stock.reportId) ≤ 1 →
      (create_tracked_stock stock freshId nowIso db).2.countP
        (sameDedupKey stock.userId stock.symbol stock.reportId) ≤ 1) := by
  refine ⟨?_, ?_, ?_⟩
  · intro e hfind hlt
    have hkey : sameDedupKey stock.userId stock.symbol stock.reportId e = true :=
      List.find?_some hfind
    have hmem : e ∈ db := List.mem_of_find?_eq_some hfind
    have huser : (e.userId == stock.userId) = true := by
      unfold sameDedupKey at hkey
      simp only [Bool.and_eq_true] at hkey
      exact hkey.1.1
    have hany : db.any (fun ts => ts.id == e.id && ts.userId == stock.userId) = true :=
      List.any_eq_true.mpr ⟨e, hmem, by simp [huser]⟩
    have hneg : strLe e.recommendationDate stock.recommendationDate = false :=
      not_strLe_of_strLt hlt
    simp [create_tracked_stock, hfind, hneg, delete_tracked_stock, hany]
  · intro e hfind hlt
    simp [create_tracked_stock, hfind, strLe_of_strLt hlt]
  · intro hle
    cases hfind : get_tracked_stock_by_symbol stock.userId stock.symbol
        stock.reportId db with
    | none =>
      have hzero : db.countP (sameDedupKey stock.userId stock.symbol stock.reportId) = 0 :=
        List.countP_eq_zero.mpr (List.find?_eq_none.mp hfind)
      have hres : (create_tracked_stock stock freshId nowIso db).2 =
          db ++ [mkTrackedDoc stock freshId nowIso] := by
        simp [create_tracked_stock, hfind]
      rw [hres, List.countP_append, hzero]
      have hone : List.countP (sameDedupKey stock.userId stock.symbol stock.reportId)
          [mkTrackedDoc stock freshId nowIso] ≤ 1 := by
        simpa using List.countP_le_length
          (sameDedupKey stock.userId stock.symbol stock.reportId)
          (l := [mkTrackedDoc stock freshId nowIso])
      omega
    | some e =>
      cases hcmp : strLe e.recommendationDate stock.recommendationDate with
      | true =>
        have hres : create_tracked_stock stock freshId nowIso db = (e, db) := by
          simp [create_tracked_stock, hfind, hcmp]
        rw [hres]
        exact hle
      | false =>
        have hkey : sameDedupKey stock.userId stock.symbol stock.reportId e = true :=
          List.find?_some hfind
        have hmem : e ∈ db := List.mem_of_find?_eq_some hfind
        have huser : (e.userId == stock.userId) = true := by
          unfold sameDedupKey at hkey
          simp only [Bool.and_eq_true] at hkey
          exact hkey.1.1
        have hany : db.any (fun ts => ts.id == e.id && ts.userId == stock.userId) = true :=
          List.any_eq_true.mpr ⟨e, hmem, by simp [huser]⟩
        have hres : (create_tracked_stock stock freshId nowIso db).2 =
            db.filter (fun ts => !(ts.id == e.id && ts.userId == stock.userId)) ++
              [mkTrackedDoc stock freshId nowIso] := by
          simp [create_tracked_stock, hfind, hcmp, delete_tracked_stock, hany]
        rw [hres]
        simp only [List.countP_append, List.countP_filter]
        have hkept : List.countP
            (fun a => sameDedupKey stock.userId stock.symbol stock.reportId a &&
              !(a.id == e.id && a.userId == stock.userId)) db <
            List.countP (sameDedupKey stock.userId stock.symbol stock.reportId) db := by
          refine countP_and_lt_of_mem hmem hkey ?_
          simp [huser]
        have hone : List.countP
            (sameDedupKey stock.userId stock.symbol stock.reportId)
            [mkTrackedDoc stock freshId nowIso] ≤ 1 :=
          List.countP_le_length _
        omega

/-- C10: the stored tracked-stock entry used by the dedup witnesses. -/
def wExisting : TrackedStockDoc :=
  { id := "t1", userId := "u", symbol := "AAPL", reportId := some "r1",
    recommendationDate := "2024-01-05", createdAt := "c0" }

/-- New tracked stock with an earlier recommendation date than
wExisting. -/
def wStockEarlier : TrackedStock :=
  { userId := "u", symbol := "AAPL", reportId := some "r1",
    recommendationDate := "2024-01-02" }

/-- New tracked stock whose recommendation date ties with wExisting. -/
def wStockTie : TrackedStock :=
  { userId := "u", symbol := "AAPL", reportId := some "r1",
    recommendationDate := "2024-01-05" }

/-- Witness for C4: on a one-entry store, an earlier date replaces the
entry. -/
theorem C4_witness :
    get_tracked_stock_by_symbol wStockEarlier.userId wStockEarlier.symbol
        wStockEarlier.reportId [wExisting] = some wExisting ∧
    strLt wStockEarlier.recommendationDate wExisting.recommendationDate = true ∧
    create_tracked_stock wStockEarlier "fresh1" "2024-02-01T00:00:00+00:00"
        [wExisting] =
      (mkTrackedDoc wStockEarlier "fresh1" "2024-02-01T00:00:00+00:00",
        [wExisting].filter
            (fun ts => !(ts.id == wExisting.id && ts.userId == wStockEarlier.userId)) ++
          [mkTrackedDoc wStockEarlier "fresh1" "2024-02-01T00:00:00+00:00"]) :=
  ⟨by decide, by decide,
    (C4_create_tracked_stock_earlier_wins wStockEarlier "fresh1"
        "2024-02-01T00:00:00+00:00" [wExisting]).1 wExisting
      (by decide) (by decide)⟩

/-- C10: if a tracked stock already exists for the same dedup bucket
with exactly the same recommendationDate, the existing entry is
returned and the store is unchanged: an exact date tie favors the
already-stored record. -/
theorem C10_create_tracked_stock_tie_keeps_existing
    (stock : TrackedStock) (freshId nowIso : String)
    (db : List TrackedStockDoc) (e : TrackedStockDoc)
    (hfind : get_tracked_stock_by_symbol stock.userId stock.symbol
      stock.reportId db = some e)
    (heq : e.recommendationDate = stock.recommendationDate) :
    create_tracked_stock stock freshId nowIso db = (e, db) := by
  have hcmp : strLe e.recommendationDate stock.recommendationDate = true := by
    rw [heq]
    exact strLe_refl _
  simp [create_tracked_stock, hfind, hcmp]

/-- Witness for C10 on the concrete one-entry store. -/
theorem C10_witness :
    get_tracked_stock_by_symbol wStockTie.userId wStockTie.symbol
        wStockTie.reportId [wExisting] = some wExisting ∧
    wExisting.recommendationDate = wStockTie.recommendationDate ∧
    create_tracked_stock wStockTie "fresh2" "2024-02-01T00:00:00+00:00"
        [wExisting] = (wExisting, [wExisting]) :=
  ⟨by decide, by decide,
    C10_create_tracked_stock_tie_keeps_existing wStockTie "fresh2"
      "2024-02-01T00:00:00+00:00" [wExisting] wExisting (by decide) (by decide)⟩

-- ── report deletion (reports_delete handler + cosmos.delete_report) ─

/-- A report document as stored by cosmos.py; blobPaths maps artifact
kind (md, html, pdf) to a storage path. -/
structure ReportDoc where
  id : String
  userId : String
  title : String := ""
  blobPaths : List (String × String) := []
  createdAt : String := ""
deriving DecidableEq, Repr

/-- The report documents together with the paths present in the
reports blob container. -/
structure ReportsState where
  reports : List ReportDoc
  blobs : List String
deriving DecidableEq, Repr

/-- The id-and-owner test used by cosmos.py report reads and deletes. -/
def reportMatch (report_id user_id : String) (r : ReportDoc) : Bool :=
  r.id == report_id && r.userId == user_id

/-- cosmos.py get_report, local branch: first match or None. -/
def get_report (report_id user_id : String) (reports : List ReportDoc) :
    Option ReportDoc :=
  reports.find? (reportMatch report_id user_id)

/-- cosmos.py delete_report, local branch: the loop keeps every
non-matching document and remembers the last matching one; nothing is
written when no document matched. -/
def delete_report (report_id user_id : String) (reports : List ReportDoc) :
    Option ReportDoc × List ReportDoc :=
  match (reports.filter (reportMatch report_id user_id)).getLast? with
  | none => (none, reports)
  | some d =>
    (some d, reports.filter (fun r => !(reportMatch report_id user_id r)))

/-- blob.py delete_blob wrapped in the try/except of the handler: a
failing delete (oracle fail) leaves the container unchanged, a
successful one removes the path. -/
def delete_blob (path : String) (fail : String → Bool)
    (blobs : List String) : List String :=
  if fail path then blobs else blobs.filter (fun q => !(q == path))

/-- The blob paths the handler deletes: values of the md, html, pdf
keys of blobPaths, skipping falsy (missing or empty) entries. -/
def reportPaths (doc : ReportDoc) : List String :=
  (["md", "html", "pdf"].filterMap (fun k => doc.blobPaths.lookup k)).filter
    (fun p => !(p == ""))

/-- Outcome of the reports_delete HTTP handler: 400 when no id, 404
when the report is unknown, otherwise the deleted flag of the 200/404
response body. -/
inductive ReportsDeleteOutcome where
  | badRequest
  | notFound
  | deleted (ok : Bool)
deriving DecidableEq, Repr

/-- reports_delete handler main: look the report up, best-effort
delete its blobs, then delete the document. -/
def reports_delete_main (report_id : Option String) (user_id : String)
    (fail : String → Bool) (st : ReportsState) :
    ReportsDeleteOutcome × ReportsState :=
  if !(pyTruthy report_id) then (.badRequest, st)
  else
    let rid := report_id.getD ""
    match get_report rid user_id st.reports with
    | none => (.notFound, st)
    | some doc =>
      let blobs1 := (reportPaths doc).foldl
        (fun bs p => delete_blob p fail bs) st.blobs
      let res := delete_report rid user_id st.reports
      (.deleted res.1.isSome, { reports := res.2, blobs := blobs1 })

/-- An association list with distinct keys looks every stored pair up
to its own value. -/
theorem lookup_of_nodup_mem {l : List (String × String)}
    (hnd : (l.map Prod.fst).Nodup) {kp : String × String} (hm : kp ∈ l) :
    l.lookup kp.1 = some kp.2 := by
  induction l with
  | nil => cases hm
  | cons x xs ih =>
    rw [List.map_cons, List.nodup_cons] at hnd
    rcases List.mem_cons.mp hm with rfl | hmem
    · simp [List.lookup]
    · have hx : x.1 ≠ kp.1 := by
        intro h
        exact hnd.1 (h ▸ List.mem_map_of_mem Prod.fst hmem)
      have hbeq : (kp.1 == x.1) = false :=
        beq_eq_false_iff_ne.mpr (fun h => hx h.symm)
      simp only [List.lookup, hbeq]
      exact ih hnd.2 hmem

/-- Blob deletion only removes paths: anything in the result was
already in the container. -/
theorem mem_of_mem_foldl_delete (fail : String → Bool) :
    ∀ (paths : List String) (bs : List String) (q : String),
      q ∈ paths.foldl (fun bs p => delete_blob p fail bs) bs → q ∈ bs := by
  intro paths
  induction paths with
  | nil => intro bs q h; exact h
  | cons p ps ih =>
    intro bs q h
    have h1 : q ∈ delete_blob p fail bs := ih _ q h
    unfold delete_blob at h1
    split at h1
    · exact h1
    · exact (List.mem_filter.mp h1).1

/-- After the best-effort loop, a path whose delete did not fail is
gone from the container. -/
theorem not_mem_foldl_delete (fail : String → Bool) :
    ∀ (paths : List String) (bs : List String) (p : String),
      p ∈ paths → fail p = false →
      p ∉ paths.foldl (fun bs p => delete_blob p fail bs) bs := by
  intro paths
  induction paths with
  | nil => intro bs p h; cases h
  | cons x xs ih =>
    intro bs p hmem hfail
    rcases List.mem_cons.mp hmem with rfl | hmem2
    · intro hcontra
      have h1 : p ∈ delete_blob p fail bs :=
        mem_of_mem_foldl_delete fail xs _ p hcontra
      unfold delete_blob at h1
      rw [hfail] at h1
      simp at h1
    · exact ih _ p hmem2 hfail

/-- C7: deleting an existing report (whose blobPaths carries the
standard md/html/pdf keys with distinct keys and real paths) removes
every referenced blob and then the document, answering deleted=true;
deleting an unknown or already-deleted id answers not-found and leaves
the store untouched. -/
theorem C7_reports_delete_correct (rid uid : String) (fail : String → Bool)
    (st : ReportsState) :
    (rid ≠ "" → get_report rid uid st.reports = none →
      reports_delete_main (some rid) uid fail st = (.notFound, st)) ∧
    (∀ doc, rid ≠ "" → get_report rid uid st.reports = some doc →
      (∀ kp ∈ doc.blobPaths, kp.1 = "md" ∨ kp.1 = "html" ∨ kp.1 = "pdf") →
      (doc.blobPaths.map Prod.fst).Nodup →
      (∀ kp ∈ doc.blobPaths, kp.2 ≠ "") →
      (∀ kp ∈ doc.blobPaths, fail kp.2 = false) →
      (reports_delete_main (some rid) uid fail st).1 = .deleted true ∧
      (∀ kp ∈ doc.blobPaths,
        kp.2 ∉ (reports_delete_main (some rid) uid fail st).2.blobs) ∧
      get_report rid uid (reports_delete_main (some rid) uid fail st).2.reports =
        none) := by
  constructor
  · intro hne hnone
    have ht : pyTruthy (some rid) = true := by
      simp only [pyTruthy]
      rw [beq_eq_false_iff_ne.mpr hne]
      rfl
    simp [reports_delete_main, ht, hnone]
  · intro doc hne hfind hkeys hnd hval hfail
    have ht : pyTruthy (some rid) = true := by
      simp only [pyTruthy]
      rw [beq_eq_false_iff_ne.mpr hne]
      rfl
    have hdocmem : doc ∈ st.reports := List.mem_of_find?_eq_some hfind
    have hdocpred : reportMatch rid uid doc = true := List.find?_some hfind
    have hmatches : doc ∈ st.reports.filter (reportMatch rid uid) :=
      List.mem_filter.mpr ⟨hdocmem, hdocpred⟩
    have hne2 : st.reports.filter (reportMatch rid uid) ≠ [] :=
      List.ne_nil_of_mem hmatches
    obtain ⟨d, hd⟩ := Option.isSome_iff_exists.mp
      (List.getLast?_isSome.mpr hne2)
    have hmain : reports_delete_main (some rid) uid fail st =
        (.deleted true,
          { reports := st.reports.filter (fun r => !(reportMatch rid uid r)),
            blobs := (reportPaths doc).foldl
              (fun bs p => delete_blob p fail bs) st.blobs }) := by
      simp [reports_delete_main, ht, hfind, delete_report, hd]
    have hpaths : ∀ kp ∈ doc.blobPaths, kp.2 ∈ reportPaths doc := by
      intro kp hkp
      unfold reportPaths
      refine List.mem_filter.mpr ⟨?_, ?_⟩
      · refine List.mem_filterMap.mpr ⟨kp.1, ?_, lookup_of_nodup_mem hnd hkp⟩
        rcases hkeys kp hkp with h | h | h <;> simp [h]
      · rw [beq_eq_false_iff_ne.mpr (hval kp hkp)]
        rfl
    refine ⟨by rw [hmain], ?_, ?_⟩
    · intro kp hkp
      rw [hmain]
      exact not_mem_foldl_delete fail (reportPaths doc) st.blobs kp.2
        (hpaths kp hkp) (hfail kp hkp)
    · rw [hmain]
      refine List.find?_eq_none.mpr ?_
      intro r hr
      have h1 := (List.mem_filter.mp hr).2
      simp only [Bool.not_eq_true'] at h1
      rw [h1]
      exact Bool.false_ne_true

/-- Concrete report used by the C7 witness. -/
def wReport : ReportDoc :=
  { id := "r1", userId := "u",
    blobPaths := [("md", "u/s1/r1/report.md"), ("html", "u/s1/r1/report.html")] }

/-- Concrete store used by the C7 witness. -/
def wReportsState : ReportsState :=
  { reports := [wReport],
    blobs := ["u/s1/r1/report.md", "u/s1/r1/report.html", "other/path"] }

/-- Witness for C7 on the concrete one-report store. -/
theorem C7_witness :
    ("r1" : String) ≠ "" ∧
    get_report "r1" "u" wReportsState.reports = some wReport ∧
    (∀ kp ∈ wReport.blobPaths, kp.1 = "md" ∨ kp.1 = "html" ∨ kp.1 = "pdf") ∧
    (wReport.blobPaths.map Prod.fst).Nodup ∧
    (∀ kp ∈ wReport.blobPaths, kp.2 ≠ "") ∧
    (∀ kp ∈ wReport.blobPaths, (fun _ => false : String → Bool) kp.2 = false) ∧
    ((reports_delete_main (some "r1") "u" (fun _ => false) wReportsState).1 =
        .deleted true ∧
      (∀ kp ∈ wReport.blobPaths,
        kp.2 ∉ (reports_delete_main (some "r1") "u" (fun _ => false)
          wReportsState).2.blobs) ∧
      get_report "r1" "u" (reports_delete_main (some "r1") "u" (fun _ => false)
        wReportsState).2.reports = none) :=
  ⟨by decide, by decide, by decide, by decide, by decide, by decide,
    (C7_reports_delete_correct "r1" "u" (fun _ => false) wReportsState).2 wReport
      (by decide) (by decide) (by decide) (by decide) (by decide) (by decide)⟩

-- ── due-schedule scanner (due_scheduler handler) ────────────────────

/-- A run document as created by the scanner (models.py Run with the
fields the sweep sets; the remaining Run fields keep their model
defaults and play no role in the sweep). -/
structure RunDoc where
  id : String
  scheduleId : String
  userId : String
  status : String := "queued"
  createdAt : String := ""
deriving DecidableEq, Repr

/-- The orchestration input payload built by the scanner. -/
structure OrchInput where
  scheduleId : String
  symbols : List String
  prompt : String
  runId : String
  emailTo : List String
  userId : String
  attachPdf : Bool
  scheduleTitle : String
deriving DecidableEq, Repr

/-- Observable effects of one sweep: run documents created,
orchestrations started, nextRunAt updates written. -/
structure SweepState where
  runs : List RunDoc
  orchestrations : List OrchInput
  nextRunUpdates : List (String × Nat)
deriving DecidableEq, Repr

/-- Failure oracles for the fallible steps of the per-schedule body
(run-record creation, orchestration launch, recurrence parsing,
nextRunAt update), plus the id generator for new run records. -/
structure SweepEnv where
  createRunFails : String → Bool
  startOrchFails : String → Bool
  recurrenceParseFails : String → Bool
  updateNextRunFails : String → Bool
  runIdFor : String → String

/-- The orchestration input the scanner builds for one due schedule. -/
def mkOrchInput (sched : ScheduleDoc) (runId : String) : OrchInput :=
  { scheduleId := sched.id
    symbols := sched.symbols
    prompt := sched.prompt.getD ""
    runId := runId
    emailTo := (match sched.email with
                | none => []
                | some e => e.to_)
    userId := sched.userId
    attachPdf := (match sched.email with
                  | none => false
                  | some e => e.attachPdf)
    scheduleTitle := sched.title.getD "" }

/-- The try-block body of the scanner loop for one due schedule.  A
raise at any step aborts the rest of the body but keeps the effects
already performed (the store writes are not rolled back); the
exception is swallowed by the caller. -/
def process_due_schedule (env : SweepEnv) (tnow : Nat) (nowIso : String)
    (st : SweepState) (sched : ScheduleDoc) : SweepState :=
  if env.createRunFails sched.id then st
  else
    let runDoc : RunDoc :=
      { id := env.runIdFor sched.id, scheduleId := sched.id,
        userId := sched.userId, createdAt := nowIso }
    let st1 := { st with runs := st.runs ++ [runDoc] }
    if env.startOrchFails sched.id then st1
    else
      let st2 := { st1 with
        orchestrations := st1.orchestrations ++ [mkOrchInput sched runDoc.id] }
      if env.recurrenceParseFails sched.id then st2
      else if env.updateNextRunFails sched.id then st2
      else { st2 with
        nextRunUpdates := st2.nextRunUpdates ++
          [(sched.id, compute_next_run_utc sched.recurrence tnow)] }

/-- due_scheduler main loop: per-schedule errors are swallowed and the
loop continues with the next due schedule. -/
def due_scheduler_sweep (env : SweepEnv) (tnow : Nat) (nowIso : String)
    (st : SweepState) (due : List ScheduleDoc) : SweepState :=
  due.foldl (process_due_schedule env tnow nowIso) st

/-- due_scheduler main: query the due schedules (limit 50) and sweep
over them. -/
def due_scheduler_main (env : SweepEnv) (tnow : Nat) (nowIso : String)
    (db : List ScheduleDoc) : SweepState :=
  due_scheduler_sweep env tnow nowIso ⟨[], [], []⟩
    (list_due_schedules nowIso 50 db)

theorem process_due_schedule_runs_mono {env tnow nowIso st sched} {r : RunDoc}
    (h : r ∈ st.runs) :
    r ∈ (process_due_schedule env tnow nowIso st sched).runs := by
  unfold process_due_schedule
  repeat' split
  all_goals simp_all [List.mem_append]

theorem process_due_schedule_orch_mono {env tnow nowIso st sched}
    {o : OrchInput} (h : o ∈ st.orchestrations) :
    o ∈ (process_due_schedule env tnow nowIso st sched).orchestrations := by
  unfold process_due_schedule
  repeat' split
  all_goals simp_all [List.mem_append]

theorem process_due_schedule_updates_mono {env tnow nowIso st sched}
    {u : String × Nat} (h : u ∈ st.nextRunUpdates) :
    u ∈ (process_due_schedule env tnow nowIso st sched).nextRunUpdates := by
  unfold process_due_schedule
  repeat' split
  all_goals simp_all [List.mem_append]

theorem due_scheduler_sweep_runs_mono {env tnow nowIso} {r : RunDoc} :
    ∀ {due : List ScheduleDoc} {st : SweepState}, r ∈ st.runs →
      r ∈ (due_scheduler_sweep env tnow nowIso st due).runs := by
  intro due
  induction due with
  | nil => intro st h; exact h
  | cons x xs ih =>
    intro st h
    exact ih (process_due_schedule_runs_mono h)

theorem due_scheduler_sweep_orch_mono {env tnow nowIso} {o : OrchInput} :
    ∀ {due : List ScheduleDoc} {st : SweepState}, o ∈ st.orchestrations →
      o ∈ (due_scheduler_sweep env tnow nowIso st due).orchestrations := by
  intro due
  induction due with
  | nil => intro st h; exact h
  | cons x xs ih =>
    intro st h
    exact ih (process_due_schedule_orch_mono h)

theorem due_scheduler_sweep_updates_mono {env tnow nowIso} {u : String × Nat} :
    ∀ {due : List ScheduleDoc} {st : SweepState}, u ∈ st.nextRunUpdates →
      u ∈ (due_scheduler_sweep env tnow nowIso st due).nextRunUpdates := by
  intro due
  induction due with
  | nil => intro st h; exact h
  | cons x xs ih =>
    intro st h
    exact ih (process_due_schedule_updates_mono h)

/-- C8: within one sweep, whatever failures other schedules hit, every
due schedule whose own steps do not fail still gets its run record
created, its orchestration started and its nextRunAt update written —
per-item errors are swallowed and the loop continues. -/
theorem C8_sweep_isolates_per_schedule_failures (env : SweepEnv) (tnow : Nat)
    (nowIso : String) (st : SweepState) (due : List ScheduleDoc)
    (s : ScheduleDoc) (hmem : s ∈ due)
    (h1 : env.createRunFails s.id = false)
    (h2 : env.startOrchFails s.id = false)
    (h3 : env.recurrenceParseFails s.id = false)
    (h4 : env.updateNextRunFails s.id = false) :
    (∃ r ∈ (due_scheduler_sweep env tnow nowIso st due).runs,
      r.scheduleId = s.id) ∧
    (∃ o ∈ (due_scheduler_sweep env tnow nowIso st due).orchestrations,
      o.scheduleId = s.id) ∧
    (s.id, compute_next_run_utc s.recurrence tnow) ∈
      (due_scheduler_sweep env tnow nowIso st due).nextRunUpdates := by
  induction due generalizing st with
  | nil => cases hmem
  | cons x xs ih =>
    have hcons : due_scheduler_sweep env tnow nowIso st (x :: xs) =
        due_scheduler_sweep env tnow nowIso
          (process_due_schedule env tnow nowIso st x) xs := rfl
    rcases List.mem_cons.mp hmem with rfl | hmem2
    · rw [hcons]
      have hproc : process_due_schedule env tnow nowIso st s =
          { runs := st.runs ++
              [{ id := env.runIdFor s.id, scheduleId := s.id,
                 userId := s.userId, createdAt := nowIso }],
            orchestrations := st.orchestrations ++
              [mkOrchInput s (env.runIdFor s.id)],
            nextRunUpdates := st.nextRunUpdates ++
              [(s.id, compute_next_run_utc s.recurrence tnow)] } := by
        simp [process_due_schedule, h1, h2, h3, h4]
      refine ⟨⟨{ id := env.runIdFor s.id, scheduleId := s.id,
                  userId := s.userId, createdAt := nowIso }, ?_, rfl⟩,
              ⟨mkOrchInput s (env.runIdFor s.id), ?_, rfl⟩, ?_⟩
      · refine due_scheduler_sweep_runs_mono ?_
        rw [hproc]
        simp
      · refine due_scheduler_sweep_orch_mono ?_
        rw [hproc]
        simp
      · refine due_scheduler_sweep_updates_mono ?_
        rw [hproc]
        simp
    · exact ih _ hmem2

/-- Sweep environment for the C8 witness: run creation for schedule s1
raises, everything else succeeds. -/
def wSweepEnv : SweepEnv :=
  { createRunFails := fun id => id == "s1"
    startOrchFails := fun _ => false
    recurrenceParseFails := fun _ => false
    updateNextRunFails := fun _ => false
    runIdFor := fun id => id ++ "-run" }

/-- First due schedule of the C8 witness (its processing fails). -/
def wSched1 : ScheduleDoc :=
  { id := "s1", userId := "u", nextRunAt := some "2024-01-01T00:00:00+00:00" }

/-- Second due schedule of the C8 witness (processed after the failing
one). -/
def wSched2 : ScheduleDoc :=
  { id := "s2", userId := "u", nextRunAt := some "2024-01-01T01:00:00+00:00" }

/-- Witness for C8: with the first schedule failing, the second is
still fully processed in the same sweep. -/
theorem C8_witness :
    wSched2 ∈ [wSched1, wSched2] ∧
    wSweepEnv.createRunFails wSched2.id = false ∧
    wSweepEnv.startOrchFails wSched2.id = false ∧
    wSweepEnv.recurrenceParseFails wSched2.id = false ∧
    wSweepEnv.updateNextRunFails wSched2.id = false ∧
    ((∃ r ∈ (due_scheduler_sweep wSweepEnv 0 "1970-01-01T00:00:00+00:00"
        ⟨[], [], []⟩ [wSched1, wSched2]).runs, r.scheduleId = wSched2.id) ∧
      (∃ o ∈ (due_scheduler_sweep wSweepEnv 0 "1970-01-01T00:00:00+00:00"
        ⟨[], [], []⟩ [wSched1, wSched2]).orchestrations,
        o.scheduleId = wSched2.id) ∧
      (wSched2.id, compute_next_run_utc wSched2.recurrence 0) ∈
        (due_scheduler_sweep wSweepEnv 0 "1970-01-01T00:00:00+00:00"
          ⟨[], [], []⟩ [wSched1, wSched2]).nextRunUpdates) :=
  ⟨by decide, by decide, by decide, by decide, by decide,
    C8_sweep_isolates_per_schedule_failures wSweepEnv 0
      "1970-01-01T00:00:00+00:00" ⟨[], [], []⟩ [wSched1, wSched2] wSched2
      (by decide) (by decide) (by decide) (by decide) (by decide)⟩

-- ── schedule creation handler (schedules_create) ────────────────────

/-- The request-body fields the creation gate reads (prompt may be
absent in the JSON; the handler coalesces it to the empty string
before stripping). -/
structure CreateScheduleBody where
  prompt : String := ""
  symbols : List String := []
deriving DecidableEq, Repr

/-- schedules_create: prompt = (body.get("prompt") or "").strip(). -/
def normalized_prompt (b : CreateScheduleBody) : String := pyStrip b.prompt

/-- schedules_create: symbols = [s.strip().upper() for s in raw if s
is a non-blank string]. -/
def normalized_symbols (b : CreateScheduleBody) : List String :=
  (b.symbols.filter (fun s => !(pyStrip s == ""))).map (fun s => pyUpper (pyStrip s))

/-- Outcome of the schedules_create handler validation: 400 or 201. -/
inductive CreateScheduleOutcome where
  | badRequest (msg : String)
  | created
deriving DecidableEq, Repr

/-- schedules_create main, validation part: reject when prompt and
symbols are both empty after normalization, then reject an invalid
recurrence body, otherwise create. -/
def schedules_create_main (b : CreateScheduleBody)
    (recurrenceValid : Bool) : CreateScheduleOutcome :=
  if normalized_prompt b == "" && (normalized_symbols b).isEmpty then
    .badRequest "prompt is required"
  else if !recurrenceValid then
    .badRequest "invalid recurrence"
  else
    .created

/-- The invariant as the claim words it: exactly one of the prompt and
the symbols list is provided non-empty. -/
def exactlyOneInputProvided (b : CreateScheduleBody) : Prop :=
  (normalized_prompt b ≠ "" ∧ normalized_symbols b = []) ∨
  (normalized_prompt b = "" ∧ normalized_symbols b ≠ [])

/-- C9 counterexample: a body with BOTH a non-empty prompt and a
non-empty symbols list is accepted by the handler, though the claim
demands exactly one of the two. -/
theorem C9_counterexample :
    schedules_create_main ⟨"Tech sector overview", ["AAPL"]⟩ true = .created ∧
    ¬ exactlyOneInputProvided ⟨"Tech sector overview", ["AAPL"]⟩ := by
  constructor
  · decide
  · unfold exactlyOneInputProvided
    decide

/-- C9 amended: with a valid recurrence, creation is accepted if and
only if at least one of the normalized prompt and symbols list is
non-empty; only the both-empty combination is rejected. -/
theorem C9_amended_accepts_iff_any_input (b : CreateScheduleBody) :
    schedules_create_main b true = .created ↔
      (normalized_prompt b ≠ "" ∨ normalized_symbols b ≠ []) := by
  unfold schedules_create_main
  by_cases hp : normalized_prompt b = ""
  · by_cases hs : normalized_symbols b = []
    · have hc : (normalized_prompt b == "" && (normalized_symbols b).isEmpty) = true := by
        simp [hp, hs]
      rw [hc]
      simp [hp, hs]
    · have hc : (normalized_prompt b == "" && (normalized_symbols b).isEmpty) = false := by
        simp [List.isEmpty_iff, hs]
      rw [hc]
      simp [hs]
  · have hc : (normalized_prompt b == "" && (normalized_symbols b).isEmpty) = false := by
      simp [hp]
    rw [hc]
    simp [hp]

-- ── report synthesis control flow (openai_agent.synthesize_report) ──

/-- A synthesis result dict: {title, markdown, html, citations}. -/
structure ReportOut where
  title : String
  markdown : String
  html : String
  citations : List (String × String)
deriving DecidableEq, Repr

/-- Abstraction of the external backends consulted by
synthesize_report.  Each result is the outcome of that backend for the
given inputs: some r means the path returns a dict, none means it
raises (which the caller catches); a Configured flag false means the
path is skipped.  The symbols/sources/prompt inputs flow only into the
backends, so they live inside these oracles. -/
structure SynthEnv where
  deepResult : Option ReportOut
  agentConfigured : Bool
  agentResult : Option ReportOut
  chatConfigured : Bool
  chatResult : Option ReportOut
deriving DecidableEq, Repr

/-- openai_agent.synthesize_report control flow: try the deep-research
path when requested, then the agent/assistants path when configured,
then chat completions when configured, each with its exceptions
swallowed.  When every path is unavailable or fails, control falls off
the end of the Python function and None is returned — the local
_fallback_report defined directly above it is never called. -/
def synthesize_report (env : SynthEnv) (deep_research : Bool) :
    Option ReportOut :=
  match deep_research, env.deepResult with
  | true, some r => some r
  | _, _ =>
    match env.agentConfigured, env.agentResult with
    | true, some r => some r
    | _, _ =>
      match env.chatConfigured, env.chatResult with
      | true, some r => some r
      | _, _ => none

/-- The environment in which every upstream backend is unavailable. -/
def env_all_unavailable : SynthEnv :=
  { deepResult := none, agentConfigured := false, agentResult := none,
    chatConfigured := false, chatResult := none }

/-- C2 (code bug): with every upstream backend unavailable,
synthesize_report returns None instead of the locally assembled
fallback report promised by its own docstring and return annotation;
_fallback_report is dead code. -/
theorem C2_synthesize_report_returns_none_when_all_backends_fail :
    synthesize_report env_all_unavailable false = none ∧
    synthesize_report env_all_unavailable true = none := by
  constructor
  · rfl
  · rfl
